import Mathlib

/-!
Verification of the execution-context abstraction of `connectome-manipulator`
(`connectome_manipulator/connectome_manipulation/executors.py`).

The module contains two executor wrappers sharing a submit/drain contract:

* `DaskExecutor` (the Pooled Context): hands tasks to an external Dask pool,
  keeps a list `_jobs` of outstanding futures, and drains completed ones —
  opportunistically during `submit` (at most once per `_PROCESS_INTERVAL`) and
  with a final blocking pass at scope exit.
* `SerialExecutor` (the Immediate Context): runs the task synchronously.
* `dask_ctx` / `serial_ctx` / `in_context`: contextmanager-based selection,
  with numeric-string normalization of the Dask connection parameters.

The embedding below is a faithful translation of that module.  External
behaviour of the Dask pool is modelled as data carried by each job: a `Job`
records the eventual `outcome` of its task (normal result or raised
exception), its attached `extra_data`, and the wall-clock instant
`completionTime` at which the pool finishes it; `future.done()` at time `now`
is `completionTime ≤ now`, and `as_completed` streams jobs back ordered by
completion time.  Hook invocations are recorded as an explicit list of
`(result, extra_data)` pairs, in invocation order; a propagating Python
exception is an `Option String` component of each step's outcome.
-/

namespace ConnectomeManipulator

/-! ### Parameter normalization (`dask_ctx`, lines 76–81)

Python strings are modelled as `List Char`.  `str.isdecimal` holds for
non-empty strings made of decimal digits only, and `int(s)` succeeds on
exactly those strings. -/

/-- Python value produced by the normalization loop of `dask_ctx`: the original
string, an `int`, or a `float` (the `except ValueError` fallback branch). -/
inductive PVal where
  | strV (s : List Char)
  | intV (n : Nat)
  | floatV (s : List Char)
deriving DecidableEq, Repr

/-- Python `str.isdecimal()`: non-empty and all characters decimal digits. -/
def isdecimal (s : List Char) : Bool := !s.isEmpty && s.all Char.isDigit

/-- Python `int(s)` on a string: succeeds exactly when `s` is a non-empty
digit string, returning its decimal value; otherwise raises (`none`). -/
def int_of_str (s : List Char) : Option Nat :=
  if !s.isEmpty && s.all Char.isDigit then
    some (s.foldl (fun acc c => acc * 10 + (c.toNat - 48)) 0)
  else none

/-- One iteration of the normalization loop in `dask_ctx`:
`if val.isdecimal(): try: int(val) except ValueError: float(val)`. -/
def coerce_param (val : List Char) : PVal :=
  if isdecimal val then
    match int_of_str val with
    | some n => .intV n
    | none => .floatV val
  else .strV val

/-- The whole normalization loop of `dask_ctx` over the caller's mapping,
modelled on the association list of entries.  In Python the loop assigns
`executor_params[k] = ...` in place, so the caller's own dict ends up holding
exactly this mapping. -/
def normalize_params (ps : List (String × List Char)) : List (String × PVal) :=
  ps.map (fun kv => (kv.1, coerce_param kv.2))

/-! ### Jobs (Dask futures as seen by the wrapper) -/

instance {ε β : Type} [DecidableEq ε] [DecidableEq β] : DecidableEq (Except ε β) := fun a b =>
  match a, b with
  | .ok x, .ok y => if h : x = y then .isTrue (by rw [h]) else .isFalse (by simp [h])
  | .error x, .error y => if h : x = y then .isTrue (by rw [h]) else .isFalse (by simp [h])
  | .ok _, .error _ => .isFalse (by simp)
  | .error _, .ok _ => .isFalse (by simp)

/-- A Dask future together with the attached `extra_data` attribute set by
`DaskExecutor.submit`.  `outcome` is what the pool eventually computes
(`Except.error` models a task that raised; `future.result()` re-raises it),
and `completionTime` is the wall-clock instant the pool finishes the task. -/
structure Job (ρ μ : Type) where
  outcome : Except String ρ
  extra_data : μ
  completionTime : Nat
deriving DecidableEq

variable {ρ μ α : Type}

/-- Dask `future.done()` evaluated at wall-clock time `now`. -/
def Job.doneAt (j : Job ρ μ) (now : Nat) : Bool := j.completionTime ≤ now

/-- The value of `future.result()` for a job whose task did not raise. -/
def Job.resultD [Inhabited ρ] (j : Job ρ μ) : ρ :=
  match j.outcome with
  | .ok r => r
  | .error _ => default

/-- Completion order on jobs: earlier completion time first. -/
def jobLE (a b : Job ρ μ) : Prop := a.completionTime ≤ b.completionTime

instance : DecidableRel (@jobLE ρ μ) := fun a b => Nat.decLe a.completionTime b.completionTime

instance : IsTotal (Job ρ μ) jobLE := ⟨fun a b => Nat.le_total a.completionTime b.completionTime⟩

instance : IsTrans (Job ρ μ) jobLE := ⟨fun _ _ _ h h' => Nat.le_trans h h'⟩

/-- Dask `as_completed`: streams the given futures back as they complete,
i.e. ordered by completion time (determinized as a stable sort). -/
def as_completed (js : List (Job ρ μ)) : List (Job ρ μ) := List.insertionSort jobLE js

/-! ### DaskExecutor (the Pooled Context) -/

/-- Client-side state of `DaskExecutor`: the Pending Set `_jobs`, the
`_last_processing` timestamp, and whether a `_result_hook` is configured
(the hook itself is external; its invocations are recorded in each step's
`hook_calls`). -/
structure DaskExecutor (ρ μ : Type) where
  jobs : List (Job ρ μ)
  last_processing : Nat
  result_hook : Bool
deriving DecidableEq

/-- `DaskExecutor._PROCESS_INTERVAL = timedelta(minutes=1)`, in seconds. -/
def _PROCESS_INTERVAL : Nat := 60

/-- Outcome of one executor operation: the updated executor, the result-hook
invocations it performed (in order), and the exception it let propagate, if
any (`none` = returned normally). -/
structure StepResult (ρ μ : Type) where
  exec : DaskExecutor ρ μ
  hook_calls : List (ρ × μ)
  err : Option String
deriving DecidableEq

/-- The `for job in jobs:` loop of `process_jobs` in the blocking case:
`jobs = as_completed(self._jobs)` yields each future once completed, so
`job.done()` is true for every yielded job; `job.result()` re-raises a task
failure, aborting the loop (the hook is only reached when a hook is set). -/
def drain_loop (hook : Bool) : List (Job ρ μ) → List (ρ × μ) → List (ρ × μ) × Option String
  | [], acc => (acc, none)
  | j :: rest, acc =>
    if hook then
      match j.outcome with
      | .ok r => drain_loop hook rest (acc ++ [(r, j.extra_data)])
      | .error e => (acc, some e)
    else drain_loop hook rest acc

/-- The `for job in jobs:` loop of `process_jobs` when an explicit job list is
passed (the opportunistic sweep): a completed job has the hook invoked on its
result (re-raising a task failure) and is released; a still-pending job is
appended back onto the fresh `self._jobs`.  Returns the rebuilt Pending Set,
the hook invocations, and a propagated exception if any. -/
def sweep_loop (hook : Bool) (now : Nat) :
    List (Job ρ μ) → List (Job ρ μ) → List (ρ × μ) →
    List (Job ρ μ) × List (ρ × μ) × Option String
  | [], requeued, acc => (requeued, acc, none)
  | j :: rest, requeued, acc =>
    if j.doneAt now then
      if hook then
        match j.outcome with
        | .ok r => sweep_loop hook now rest requeued (acc ++ [(r, j.extra_data)])
        | .error e => (requeued, acc, some e)
      else sweep_loop hook now rest requeued acc
    else sweep_loop hook now rest (requeued ++ [j]) acc

/-- `DaskExecutor.process_jobs(self, jobs=None)`.  Python's `if not jobs:`
treats both `None` and an empty list as "no explicit jobs", taking the
blocking path over `as_completed(self._jobs)`; `self._jobs = []` runs before
the loop in both paths. -/
def DaskExecutor.process_jobs (ex : DaskExecutor ρ μ) (now : Nat)
    (jobs : Option (List (Job ρ μ))) : StepResult ρ μ :=
  match jobs with
  | some (j :: rest) =>
    let r := sweep_loop ex.result_hook now (j :: rest) [] []
    ⟨{ ex with jobs := r.1 }, r.2.1, r.2.2⟩
  | _ =>
    let r := drain_loop ex.result_hook (as_completed ex.jobs) []
    ⟨{ ex with jobs := [] }, r.1, r.2⟩

/-- `DaskExecutor._timed_process_jobs`: sweep `self._jobs` when more than
`_PROCESS_INTERVAL` elapsed since `_last_processing`, then record the time
after processing (skipped if the sweep raised, as the assignment follows the
call). -/
def DaskExecutor._timed_process_jobs (ex : DaskExecutor ρ μ) (now : Nat) : StepResult ρ μ :=
  if _PROCESS_INTERVAL < now - ex.last_processing then
    let r := ex.process_jobs now (some ex.jobs)
    match r.err with
    | none => ⟨{ r.exec with last_processing := now }, r.hook_calls, none⟩
    | some e => ⟨r.exec, r.hook_calls, some e⟩
  else ⟨ex, [], none⟩

/-- `DaskExecutor.submit`: dispatch `func(*args)` to the pool (the pool
assigns the job's outcome and completion time), attach `extra_data`, run the
timed drain check, then append the new job to `self._jobs`.  The append is
skipped when the drain check raises, since the exception propagates. -/
def DaskExecutor.submit (ex : DaskExecutor ρ μ) (func : α → Except String ρ) (args : α)
    (extra_data : μ) (now ctime : Nat) : StepResult ρ μ :=
  let job : Job ρ μ := ⟨func args, extra_data, ctime⟩
  let r := ex._timed_process_jobs now
  match r.err with
  | none => ⟨{ r.exec with jobs := r.exec.jobs ++ [job] }, r.hook_calls, none⟩
  | some e => ⟨r.exec, r.hook_calls, some e⟩

/-! ### SerialExecutor (the Immediate Context) -/

/-- Client-side state of `SerialExecutor`: only whether a result hook is
configured. -/
structure SerialExecutor where
  result_hook : Bool
deriving DecidableEq

/-- Outcome of one `SerialExecutor.submit`: the value returned to the caller
(`none` when the task raised), the hook invocations, and the propagated
exception if any. -/
structure SerialStep (ρ μ : Type) where
  ret : Option ρ
  hook_calls : List (ρ × μ)
  err : Option String
deriving DecidableEq

/-- `SerialExecutor.submit`: run `func(*args)` in place; if it raised, the
exception propagates to the caller before any hook call; otherwise invoke the
hook (when configured) with `(result, extra_data)` and return the result. -/
def SerialExecutor.submit (ex : SerialExecutor) (func : α → Except String ρ) (args : α)
    (extra_data : μ) : SerialStep ρ μ :=
  match func args with
  | .error e => ⟨none, [], some e⟩
  | .ok r => ⟨some r, if ex.result_hook then [(r, extra_data)] else [], none⟩

/-- A driver loop over the Immediate Context: one `submit` per listed
`(func, args, extra_data)` triple, stopping at the first propagated
exception, with all hook invocations concatenated in order. -/
def run_serial (ex : SerialExecutor) :
    List ((α → Except String ρ) × α × μ) → List (ρ × μ) × Option String
  | [] => ([], none)
  | t :: rest =>
    let s := ex.submit t.1 t.2.1 t.2.2
    match s.err with
    | some e => (s.hook_calls, some e)
    | none =>
      let r := run_serial ex rest
      (s.hook_calls ++ r.1, r.2)

/-! ### Scoped contexts (`serial_ctx`, `dask_ctx`, `in_context`) -/

/-- One `submit` call made by the driver body inside a `dask_ctx` scope:
the task, its argument, the attached metadata, the wall-clock time of the
call, and the completion time the pool assigns to the job. -/
structure SubmitEvent (α ρ μ : Type) where
  func : α → Except String ρ
  args : α
  extra_data : μ
  now : Nat
  ctime : Nat

/-- The driver body of a `dask_ctx` scope: one `submit` per event, stopping
at the first propagated exception (which then propagates out of the `with`
block). -/
def run_submits (ex : DaskExecutor ρ μ) : List (SubmitEvent α ρ μ) → StepResult ρ μ
  | [] => ⟨ex, [], none⟩
  | e :: rest =>
    let r := ex.submit e.func e.args e.extra_data e.now e.ctime
    match r.err with
    | some err => ⟨r.exec, r.hook_calls, some err⟩
    | none =>
      let r2 := run_submits r.exec rest
      ⟨r2.exec, r.hook_calls ++ r2.hook_calls, r2.err⟩

/-- Observable outcome of a whole `dask_ctx` scope: all result-hook
invocations, the exception leaving the scope (if any), and the connection
parameter mapping as the caller sees it afterwards (the normalization loop
mutates the caller's dict in place). -/
structure ScopeResult (ρ μ : Type) where
  hook_calls : List (ρ × μ)
  err : Option String
  caller_params : List (String × PVal)

/-- `dask_ctx(result_hook, executor_params)` run to completion: normalize the
parameters in place, open the client, create the wrapper (its
`_last_processing` starts at the creation time `t0`), run the driver body
(`events`, then possibly a driver-raised error `body_err`), and — only when
the body finished normally — run the final blocking `process_jobs()`.  The
generator has no `try/finally` around its `yield`, so an exception raised by
the body (or escaping a `submit`) terminates the generator without reaching
`process_jobs()`. -/
def dask_ctx (hook : Bool) (executor_params : List (String × List Char))
    (events : List (SubmitEvent α ρ μ)) (body_err : Option String) (t0 : Nat) :
    ScopeResult ρ μ :=
  let ps := normalize_params executor_params
  let ex0 : DaskExecutor ρ μ := ⟨[], t0, hook⟩
  let r := run_submits ex0 events
  match r.err with
  | some e => ⟨r.hook_calls, some e, ps⟩
  | none =>
    match body_err with
    | some e => ⟨r.hook_calls, some e, ps⟩
    | none =>
      let fin := r.exec.process_jobs 0 none
      ⟨r.hook_calls ++ fin.hook_calls, fin.err, ps⟩

/-- The context produced by `in_context`: either the plain serial executor or
a Dask wrapper around a freshly opened `Client(**executor_params)`. -/
inductive ExecContext where
  | serial_executor (hook : Bool)
  | dask_executor (hook : Bool) (client_params : List (String × PVal))
deriving DecidableEq

/-- Number of pool-client connections the context opened on entry:
`serial_ctx` opens none, `dask_ctx` opens exactly one `Client`. -/
def clients_opened : ExecContext → Nat
  | .serial_executor _ => 0
  | .dask_executor _ _ => 1

/-- `in_context(options, params, result_hook)`: select `dask_ctx` when
`options.parallel` is set, `serial_ctx` otherwise (the latter never reads
`params` and opens no client). -/
def in_context (parallel : Bool) (params : List (String × List Char)) (hook : Bool) :
    ExecContext :=
  if parallel then .dask_executor hook (normalize_params params)
  else .serial_executor hook

/-! ### Helper lemmas -/

theorem Job.resultD_ok [Inhabited ρ] {j : Job ρ μ} {r : ρ} (h : j.outcome = .ok r) :
    j.resultD = r := by
  unfold Job.resultD
  rw [h]

/-- Coercion of one parameter value, in closed form: the `float` fallback is
unreachable because `int` succeeds on every decimal string. -/
theorem coerce_param_eq (val : List Char) :
    coerce_param val
      = if isdecimal val then PVal.intV ((int_of_str val).getD 0) else PVal.strV val := by
  unfold coerce_param int_of_str isdecimal
  split <;> simp_all

/-- Python `int` succeeds exactly on the strings `str.isdecimal` accepts. -/
theorem int_of_str_isSome (val : List Char) : (int_of_str val).isSome = isdecimal val := by
  unfold int_of_str isdecimal
  split <;> simp_all

theorem drain_loop_ok [Inhabited ρ] (l : List (Job ρ μ)) (acc : List (ρ × μ))
    (h : ∀ j ∈ l, ∃ r, j.outcome = .ok r) :
    drain_loop true l acc = (acc ++ l.map (fun j => (j.resultD, j.extra_data)), none) := by
  induction l generalizing acc with
  | nil => simp [drain_loop]
  | cons j rest ih =>
    obtain ⟨r, hr⟩ := h j (by simp)
    have hrest : ∀ j ∈ rest, ∃ r, j.outcome = .ok r := fun j hj => h j (by simp [hj])
    simp only [drain_loop, hr, if_true]
    rw [ih _ hrest]
    simp [Job.resultD_ok hr]

theorem drain_loop_error [Inhabited ρ] {e : String} (pre : List (Job ρ μ)) (bad : Job ρ μ)
    (post : List (Job ρ μ)) (acc : List (ρ × μ))
    (hpre : ∀ j ∈ pre, ∃ r, j.outcome = .ok r) (hbad : bad.outcome = .error e) :
    drain_loop true (pre ++ bad :: post) acc
      = (acc ++ pre.map (fun j => (j.resultD, j.extra_data)), some e) := by
  induction pre generalizing acc with
  | nil => simp [drain_loop, hbad]
  | cons j rest ih =>
    obtain ⟨r, hr⟩ := hpre j (by simp)
    have hrest : ∀ j ∈ rest, ∃ r, j.outcome = .ok r := fun j hj => hpre j (by simp [hj])
    have hsplit : (j :: rest) ++ bad :: post = j :: (rest ++ bad :: post) := rfl
    rw [hsplit]
    simp only [drain_loop, hr, if_true]
    rw [ih _ hrest]
    simp [Job.resultD_ok hr]

theorem sweep_loop_eq [Inhabited ρ] (now : Nat) (l requeued : List (Job ρ μ))
    (acc : List (ρ × μ))
    (h : ∀ j ∈ l, j.doneAt now = true → ∃ r, j.outcome = .ok r) :
    sweep_loop true now l requeued acc =
      (requeued ++ l.filter (fun j => !j.doneAt now),
       acc ++ (l.filter (fun j => j.doneAt now)).map (fun j => (j.resultD, j.extra_data)),
       none) := by
  induction l generalizing requeued acc with
  | nil => simp [sweep_loop]
  | cons j rest ih =>
    have hrest : ∀ j ∈ rest, j.doneAt now = true → ∃ r, j.outcome = .ok r :=
      fun j hj => h j (by simp [hj])
    by_cases hd : j.doneAt now = true
    · obtain ⟨r, hr⟩ := h j (by simp) hd
      simp only [sweep_loop, hd, if_true, hr]
      rw [ih _ _ hrest]
      simp [List.filter_cons, hd, Job.resultD_ok hr]
    · simp only [sweep_loop]
      rw [if_neg hd]
      rw [ih _ _ hrest]
      simp [List.filter_cons, hd, List.append_assoc]

/-- Invariant step for the timed drain check: when a hook is configured and
every pending job's task succeeds, `_timed_process_jobs` raises nothing,
preserves the hook and the all-successful invariant, and the metadata it
delivered plus the metadata still pending are a permutation of the metadata
that was pending before. -/
theorem timed_process_invariant [Inhabited ρ] (ex : DaskExecutor ρ μ) (now : Nat)
    (hhook : ex.result_hook = true)
    (hjobs : ∀ j ∈ ex.jobs, ∃ r, j.outcome = .ok r) :
    (ex._timed_process_jobs now).err = none ∧
    (ex._timed_process_jobs now).exec.result_hook = true ∧
    (∀ j ∈ (ex._timed_process_jobs now).exec.jobs, ∃ r, j.outcome = .ok r) ∧
    ((ex._timed_process_jobs now).hook_calls.map Prod.snd
        ++ (ex._timed_process_jobs now).exec.jobs.map Job.extra_data).Perm
      (ex.jobs.map Job.extra_data) := by
  by_cases hc : _PROCESS_INTERVAL < now - ex.last_processing
  · cases hjl : ex.jobs with
    | nil =>
      have hres : ex._timed_process_jobs now
          = ⟨⟨[], now, ex.result_hook⟩, [], none⟩ := by
        simp [DaskExecutor._timed_process_jobs, hc, DaskExecutor.process_jobs, hjl,
          as_completed, List.insertionSort, drain_loop]
      rw [hres]
      exact ⟨rfl, hhook, by simp, by simp⟩
    | cons j rest =>
      rw [hjl] at hjobs
      have hok : ∀ j' ∈ j :: rest, j'.doneAt now = true → ∃ r, j'.outcome = .ok r :=
        fun j' hj' _ => hjobs j' hj'
      have hsweep := sweep_loop_eq now (j :: rest) [] [] hok
      have hres : ex._timed_process_jobs now
          = ⟨⟨(j :: rest).filter (fun j' => !j'.doneAt now), now, ex.result_hook⟩,
              ((j :: rest).filter (fun j' => j'.doneAt now)).map
                (fun j' => (j'.resultD, j'.extra_data)), none⟩ := by
        simp [DaskExecutor._timed_process_jobs, hc, DaskExecutor.process_jobs, hjl,
          hhook, hsweep]
      rw [hres]
      refine ⟨rfl, hhook, ?_, ?_⟩
      · intro j' hj'
        simp only at hj'
        exact hjobs j' (List.mem_of_mem_filter hj')
      · have hfp := (List.filter_append_perm (fun j' => j'.doneAt now) (j :: rest)).map
          Job.extra_data
        simpa [List.map_append, List.map_map, Function.comp] using hfp
  · have hres : ex._timed_process_jobs now = ⟨ex, [], none⟩ := by
      simp [DaskExecutor._timed_process_jobs, hc]
    rw [hres]
    exact ⟨rfl, hhook, hjobs, by simp⟩

/-- Invariant step for `submit`: under the same conditions, plus a succeeding
task, `submit` raises nothing, keeps every pending job successful, and the
delivered-plus-pending metadata after the call is a permutation of the
pending metadata before plus the new job's metadata. -/
theorem submit_invariant [Inhabited ρ] (ex : DaskExecutor ρ μ) (func : α → Except String ρ)
    (args : α) (extra : μ) (now ctime : Nat)
    (hhook : ex.result_hook = true)
    (hjobs : ∀ j ∈ ex.jobs, ∃ r, j.outcome = .ok r)
    (hf : ∃ r, func args = .ok r) :
    (ex.submit func args extra now ctime).err = none ∧
    (ex.submit func args extra now ctime).exec.result_hook = true ∧
    (∀ j ∈ (ex.submit func args extra now ctime).exec.jobs, ∃ r, j.outcome = .ok r) ∧
    ((ex.submit func args extra now ctime).hook_calls.map Prod.snd
        ++ (ex.submit func args extra now ctime).exec.jobs.map Job.extra_data).Perm
      (ex.jobs.map Job.extra_data ++ [extra]) := by
  obtain ⟨ht1, ht2, ht3, ht4⟩ := timed_process_invariant ex now hhook hjobs
  rcases h' : ex._timed_process_jobs now with ⟨e1, c1, err1⟩
  rw [h'] at ht1 ht2 ht3 ht4
  simp only at ht1 ht2 ht3 ht4
  subst ht1
  have hsub : ex.submit func args extra now ctime
      = ⟨{ e1 with jobs := e1.jobs ++ [⟨func args, extra, ctime⟩] }, c1, none⟩ := by
    simp [DaskExecutor.submit, h']
  rw [hsub]
  refine ⟨rfl, ht2, ?_, ?_⟩
  · intro j hj
    simp only at hj
    rcases List.mem_append.mp hj with h | h
    · exact ht3 j h
    · obtain ⟨r, hr⟩ := hf
      rcases List.mem_singleton.mp h with rfl
      exact ⟨r, hr⟩
  · simp only [List.map_append]
    rw [← List.append_assoc]
    exact List.Perm.append_right _ ht4

/-- Invariant for a whole driver body: a sequence of `submit`s of succeeding
tasks raises nothing, and the delivered-plus-pending metadata afterwards is a
permutation of the initially pending metadata plus all submitted metadata. -/
theorem run_submits_invariant [Inhabited ρ] (ex : DaskExecutor ρ μ)
    (events : List (SubmitEvent α ρ μ))
    (hhook : ex.result_hook = true)
    (hjobs : ∀ j ∈ ex.jobs, ∃ r, j.outcome = .ok r)
    (hevs : ∀ e ∈ events, ∃ r, e.func e.args = .ok r) :
    (run_submits ex events).err = none ∧
    (run_submits ex events).exec.result_hook = true ∧
    (∀ j ∈ (run_submits ex events).exec.jobs, ∃ r, j.outcome = .ok r) ∧
    ((run_submits ex events).hook_calls.map Prod.snd
        ++ (run_submits ex events).exec.jobs.map Job.extra_data).Perm
      (ex.jobs.map Job.extra_data ++ events.map SubmitEvent.extra_data) := by
  induction events generalizing ex with
  | nil =>
    exact ⟨rfl, hhook, hjobs, by simp [run_submits]⟩
  | cons e rest ih =>
    obtain ⟨hs1, hs2, hs3, hs4⟩ :=
      submit_invariant ex e.func e.args e.extra_data e.now e.ctime hhook hjobs
        (hevs e (by simp))
    rcases h' : ex.submit e.func e.args e.extra_data e.now e.ctime with ⟨e1, c1, err1⟩
    rw [h'] at hs1 hs2 hs3 hs4
    simp only at hs1 hs2 hs3 hs4
    subst hs1
    have hrest : ∀ ev ∈ rest, ∃ r, ev.func ev.args = .ok r :=
      fun ev hev => hevs ev (by simp [hev])
    obtain ⟨ih1, ih2, ih3, ih4⟩ := ih e1 hs2 hs3 hrest
    have hrun : run_submits ex (e :: rest)
        = ⟨(run_submits e1 rest).exec, c1 ++ (run_submits e1 rest).hook_calls,
            (run_submits e1 rest).err⟩ := by
      simp [run_submits, h']
    rw [hrun]
    refine ⟨ih1, ih2, ih3, ?_⟩
    simp only [List.map_append, List.append_assoc]
    refine List.Perm.trans (List.Perm.append_left _ ih4) ?_
    rw [← List.append_assoc]
    refine List.Perm.trans (List.Perm.append_right _ hs4) ?_
    simp [List.append_assoc]

/-! ### Claim theorems -/

/-- C6: in the Context Selector's parameter normalization, every
connection-parameter value that is a purely numeric (decimal) string is
coerced to `int` — and the `int` coercion never fails on such a string, so
the `float` fallback is only taken when `int` coercion fails (i.e. never) —
while non-numeric string values are passed through unchanged. -/
theorem coerce_param_numeric_strings :
    ∀ val : List Char,
      coerce_param val
          = (if isdecimal val then PVal.intV ((int_of_str val).getD 0) else PVal.strV val) ∧
      (int_of_str val).isSome = isdecimal val :=
  fun val => ⟨coerce_param_eq val, int_of_str_isSome val⟩

/-- C7: `in_context` with the parallel flag false yields the Immediate
(serial) Context, opens no pool-client connection, and never touches the
connection-parameter mapping — the result is the same whatever the mapping
contains. -/
theorem in_context_serial_no_pool :
    ∀ (params params2 : List (String × List Char)) (hook : Bool),
      in_context false params hook = ExecContext.serial_executor hook ∧
      clients_opened (in_context false params hook) = 0 ∧
      in_context false params hook = in_context false params2 hook := by
  intro params params2 hook
  refine ⟨rfl, rfl, rfl⟩

/-- C9: calling the blocking drain (`process_jobs` with no argument) on a
Pooled Context whose Pending Set is empty is a no-op: no hook invocation, no
error, and the executor (in particular its empty Pending Set) is unchanged. -/
theorem process_jobs_empty_noop (ex : DaskExecutor ρ μ) (now : Nat) (h : ex.jobs = []) :
    ex.process_jobs now none = ⟨ex, [], none⟩ := by
  cases ex with
  | mk jobs lp hook =>
    simp only at h
    subst h
    cases hook <;> rfl

/-- Witness for C9 at a concrete executor. -/
theorem process_jobs_empty_noop_witness :
    (⟨[], 5, true⟩ : DaskExecutor Nat Nat).process_jobs 99 none
      = ⟨⟨[], 5, true⟩, [], none⟩ :=
  process_jobs_empty_noop ⟨[], 5, true⟩ 99 rfl

/-- C10: creating a Pooled Context via `dask_ctx` rewrites the caller's
connection-parameter mapping in place: every purely-decimal string value is
replaced by its coerced `int`, keys and all other values are unchanged, and
on every exit path the mapping the caller ends up holding is exactly this
normalized one. -/
theorem dask_ctx_normalizes_caller_params :
    ∀ (ps : List (String × List Char)),
      normalize_params ps = ps.map (fun kv =>
        (kv.1, if isdecimal kv.2 then PVal.intV ((int_of_str kv.2).getD 0)
               else PVal.strV kv.2)) ∧
      (normalize_params ps).map Prod.fst = ps.map Prod.fst ∧
      ∀ (hook : Bool) (events : List (SubmitEvent Nat Nat Nat)) (body_err : Option String)
        (t0 : Nat),
        (dask_ctx hook ps events body_err t0).caller_params = normalize_params ps := by
  intro ps
  refine ⟨List.map_congr_left (fun kv _ => by rw [coerce_param_eq]), by simp [normalize_params], ?_⟩
  intro hook events body_err t0
  simp only [dask_ctx]
  rcases h : (run_submits (⟨[], t0, hook⟩ : DaskExecutor Nat Nat) events).err with _ | e
  · rcases body_err with _ | e' <;> rfl
  · rfl

/-- C4: `process_jobs` with no explicit job collection performs a blocking
drain: it consumes the Pending Set via `as_completed` — a permutation of the
pending handles, sorted by completion time (completion order, not submission
order) — invokes the Result Hook with `(result, extra_data)` for each handle
in that order, raises nothing (all tasks here succeed), and leaves the
Pending Set empty. -/
theorem process_jobs_blocking_drain [Inhabited ρ] (ex : DaskExecutor ρ μ) (now : Nat)
    (hhook : ex.result_hook = true)
    (hok : ∀ j ∈ ex.jobs, ∃ r, j.outcome = .ok r) :
    (ex.process_jobs now none).hook_calls
        = (as_completed ex.jobs).map (fun j => (j.resultD, j.extra_data)) ∧
    (ex.process_jobs now none).exec.jobs = [] ∧
    (ex.process_jobs now none).err = none ∧
    (as_completed ex.jobs).Perm ex.jobs ∧
    List.Sorted jobLE (as_completed ex.jobs) := by
  have hok' : ∀ j ∈ as_completed ex.jobs, ∃ r, j.outcome = .ok r := fun j hj =>
    hok j ((List.perm_insertionSort jobLE ex.jobs).mem_iff.mp hj)
  have hdrain := drain_loop_ok (as_completed ex.jobs) [] hok'
  refine ⟨?_, rfl, ?_, List.perm_insertionSort _ _, List.sorted_insertionSort _ _⟩
  · simp [DaskExecutor.process_jobs, hhook, hdrain]
  · simp [DaskExecutor.process_jobs, hhook, hdrain]

/-- Witness for C4: two successful jobs submitted in one order, completing in
the other; the hook receives both results in completion order and the
Pending Set ends empty. -/
theorem process_jobs_blocking_drain_witness :
    ((⟨[⟨.ok 1, 10, 2⟩, ⟨.ok 2, 20, 1⟩], 0, true⟩ : DaskExecutor Nat Nat).process_jobs 0
          none).hook_calls
        = (as_completed ([⟨.ok 1, 10, 2⟩, ⟨.ok 2, 20, 1⟩] : List (Job Nat Nat))).map
            (fun j => (j.resultD, j.extra_data)) ∧
    ((⟨[⟨.ok 1, 10, 2⟩, ⟨.ok 2, 20, 1⟩], 0, true⟩ : DaskExecutor Nat Nat).process_jobs 0
          none).exec.jobs = [] ∧
    ((⟨[⟨.ok 1, 10, 2⟩, ⟨.ok 2, 20, 1⟩], 0, true⟩ : DaskExecutor Nat Nat).process_jobs 0
          none).err = none ∧
    (as_completed ([⟨.ok 1, 10, 2⟩, ⟨.ok 2, 20, 1⟩] : List (Job Nat Nat))).Perm
        [⟨.ok 1, 10, 2⟩, ⟨.ok 2, 20, 1⟩] ∧
    List.Sorted jobLE (as_completed ([⟨.ok 1, 10, 2⟩, ⟨.ok 2, 20, 1⟩] : List (Job Nat Nat))) :=
  process_jobs_blocking_drain ⟨[⟨.ok 1, 10, 2⟩, ⟨.ok 2, 20, 1⟩], 0, true⟩ 0 rfl
    (by
      intro j hj
      rcases List.mem_cons.mp hj with h | h
      · exact ⟨1, by rw [h]⟩
      · rcases List.mem_cons.mp h with h' | h'
        · exact ⟨2, by rw [h']⟩
        · cases h')

/-- C5: `process_jobs` with an explicit non-empty candidate collection
performs a non-blocking sweep: already-completed handles (here all
succeeding) have the hook invoked and are released, still-pending handles are
requeued into the new Pending Set preserving their relative order (the
still-pending subset is exactly the `filter` of the candidates), and no
exception propagates — the call does not wait for any unfinished handle. -/
theorem process_jobs_sweep [Inhabited ρ] (ex : DaskExecutor ρ μ) (now : Nat)
    (js : List (Job ρ μ)) (hne : js ≠ [])
    (hhook : ex.result_hook = true)
    (hok : ∀ j ∈ js, j.doneAt now = true → ∃ r, j.outcome = .ok r) :
    (ex.process_jobs now (some js)).exec.jobs = js.filter (fun j => !j.doneAt now) ∧
    (ex.process_jobs now (some js)).hook_calls
        = (js.filter (fun j => j.doneAt now)).map (fun j => (j.resultD, j.extra_data)) ∧
    (ex.process_jobs now (some js)).err = none := by
  match js, hne with
  | j :: rest, _ =>
    have hsweep := sweep_loop_eq now (j :: rest) [] [] hok
    refine ⟨?_, ?_, ?_⟩ <;> simp [DaskExecutor.process_jobs, hhook, hsweep]

/-- Witness for C5: one completed and one unfinished candidate; the completed
one is delivered, the unfinished one is requeued. -/
theorem process_jobs_sweep_witness :
    ((⟨[], 0, true⟩ : DaskExecutor Nat Nat).process_jobs 5
          (some [⟨.ok 1, 10, 0⟩, ⟨.ok 2, 20, 100⟩])).exec.jobs
        = ([⟨.ok 1, 10, 0⟩, ⟨.ok 2, 20, 100⟩] : List (Job Nat Nat)).filter
            (fun j => !j.doneAt 5) ∧
    ((⟨[], 0, true⟩ : DaskExecutor Nat Nat).process_jobs 5
          (some [⟨.ok 1, 10, 0⟩, ⟨.ok 2, 20, 100⟩])).hook_calls
        = (([⟨.ok 1, 10, 0⟩, ⟨.ok 2, 20, 100⟩] : List (Job Nat Nat)).filter
            (fun j => j.doneAt 5)).map (fun j => (j.resultD, j.extra_data)) ∧
    ((⟨[], 0, true⟩ : DaskExecutor Nat Nat).process_jobs 5
          (some [⟨.ok 1, 10, 0⟩, ⟨.ok 2, 20, 100⟩])).err = none :=
  process_jobs_sweep ⟨[], 0, true⟩ 5 [⟨.ok 1, 10, 0⟩, ⟨.ok 2, 20, 100⟩] (by simp) rfl
    (by
      intro j hj _
      rcases List.mem_cons.mp hj with h | h
      · exact ⟨1, by rw [h]⟩
      · rcases List.mem_cons.mp h with h' | h'
        · exact ⟨2, by rw [h']⟩
        · cases h')

/-- C2, amended: a failing task's exception is not caught by the Pooled
Context — the blocking drain re-raises it — and before re-raising, the hook
has been delivered exactly the results of the successful jobs that complete
before the failing one (completion order); successful jobs completing after
the failing job are not delivered, and the Pending Set is left empty. -/
theorem process_jobs_error_after_earlier_completions [Inhabited ρ] (ex : DaskExecutor ρ μ)
    (now : Nat) (pre post : List (Job ρ μ)) (bad : Job ρ μ) (e : String)
    (hhook : ex.result_hook = true)
    (hsort : as_completed ex.jobs = pre ++ bad :: post)
    (hpre : ∀ j ∈ pre, ∃ r, j.outcome = .ok r)
    (hbad : bad.outcome = .error e) :
    (ex.process_jobs now none).err = some e ∧
    (ex.process_jobs now none).hook_calls = pre.map (fun j => (j.resultD, j.extra_data)) ∧
    (ex.process_jobs now none).exec.jobs = [] := by
  have hdrain := drain_loop_error pre bad post ([] : List (ρ × μ)) hpre hbad
  refine ⟨?_, ?_, rfl⟩ <;> simp [DaskExecutor.process_jobs, hhook, hsort, hdrain]

/-- Witness for C2 (amended): five jobs, the failing one completing third;
the drain delivers the two earlier successes, then re-raises. -/
theorem process_jobs_error_after_earlier_completions_witness :
    ((⟨[⟨.ok 1, 1, 0⟩, ⟨.ok 2, 2, 1⟩, ⟨.error "boom", 3, 2⟩, ⟨.ok 4, 4, 3⟩, ⟨.ok 5, 5, 4⟩],
          0, true⟩ : DaskExecutor Nat Nat).process_jobs 0 none).err = some "boom" ∧
    ((⟨[⟨.ok 1, 1, 0⟩, ⟨.ok 2, 2, 1⟩, ⟨.error "boom", 3, 2⟩, ⟨.ok 4, 4, 3⟩, ⟨.ok 5, 5, 4⟩],
          0, true⟩ : DaskExecutor Nat Nat).process_jobs 0 none).hook_calls
        = ([⟨.ok 1, 1, 0⟩, ⟨.ok 2, 2, 1⟩] : List (Job Nat Nat)).map
            (fun j => (j.resultD, j.extra_data)) ∧
    ((⟨[⟨.ok 1, 1, 0⟩, ⟨.ok 2, 2, 1⟩, ⟨.error "boom", 3, 2⟩, ⟨.ok 4, 4, 3⟩, ⟨.ok 5, 5, 4⟩],
          0, true⟩ : DaskExecutor Nat Nat).process_jobs 0 none).exec.jobs = [] :=
  process_jobs_error_after_earlier_completions
    ⟨[⟨.ok 1, 1, 0⟩, ⟨.ok 2, 2, 1⟩, ⟨.error "boom", 3, 2⟩, ⟨.ok 4, 4, 3⟩, ⟨.ok 5, 5, 4⟩],
      0, true⟩ 0
    [⟨.ok 1, 1, 0⟩, ⟨.ok 2, 2, 1⟩] [⟨.ok 4, 4, 3⟩, ⟨.ok 5, 5, 4⟩] ⟨.error "boom", 3, 2⟩
    "boom" rfl (by decide)
    (by
      intro j hj
      rcases List.mem_cons.mp hj with h | h
      · exact ⟨1, by rw [h]⟩
      · rcases List.mem_cons.mp h with h' | h'
        · exact ⟨2, by rw [h']⟩
        · cases h')
    rfl

/-- C2 counterexample: the claim as stated — the blocking drain re-raises
only after having delivered the 4 successful results — is false: when the
failing job completes first, the drain raises before delivering any of the 4
successful results (the hook is invoked 0 times, not 4). -/
theorem process_jobs_error_counterexample :
    ((⟨[⟨.ok 1, 1, 1⟩, ⟨.ok 2, 2, 2⟩, ⟨.error "boom", 3, 0⟩, ⟨.ok 4, 4, 3⟩, ⟨.ok 5, 5, 4⟩],
          0, true⟩ : DaskExecutor Nat Nat).process_jobs 0 none).err = some "boom" ∧
    ((⟨[⟨.ok 1, 1, 1⟩, ⟨.ok 2, 2, 2⟩, ⟨.error "boom", 3, 0⟩, ⟨.ok 4, 4, 3⟩, ⟨.ok 5, 5, 4⟩],
          0, true⟩ : DaskExecutor Nat Nat).process_jobs 0 none).hook_calls.length = 0 := by
  refine ⟨rfl, rfl⟩

/-- The `submit` the claim describes, following the claim's wording: append
the new Job Handle to the Pending Set first, and only then — after the append
— perform the opportunistic drain check (so the sweep covers the new handle
too).  Defined solely for comparison with `DaskExecutor.submit` as
implemented, where the drain check runs before the append. -/
def DaskExecutor.submit_claim_order (ex : DaskExecutor ρ μ) (func : α → Except String ρ)
    (args : α) (extra_data : μ) (now ctime : Nat) : StepResult ρ μ :=
  let job : Job ρ μ := ⟨func args, extra_data, ctime⟩
  let ex1 : DaskExecutor ρ μ := { ex with jobs := ex.jobs ++ [job] }
  ex1._timed_process_jobs now

/-- C3 counterexample: the claim's order of operations (append, then drain
check) is observably different from the code's (drain check, then append).
With an empty Pending Set, an already-completed new job and the interval
elapsed, the code's `submit` performs no hook invocation and leaves the job
pending, whereas the claim's order would deliver the new job's result to the
hook during `submit`. -/
theorem submit_order_counterexample :
    ((⟨[], 0, true⟩ : DaskExecutor Nat Nat).submit (fun _ => .ok 5) 0 0 61 0).hook_calls
        = [] ∧
    ((⟨[], 0, true⟩ : DaskExecutor Nat Nat).submit (fun _ => .ok 5) 0 0 61 0).exec.jobs.length
        = 1 ∧
    ((⟨[], 0, true⟩ : DaskExecutor Nat Nat).submit_claim_order (fun _ => .ok 5) 0 0 61
          0).hook_calls = [(5, 0)] ∧
    ((⟨[], 0, true⟩ : DaskExecutor Nat Nat).submit_claim_order (fun _ => .ok 5) 0 0 61
          0).exec.jobs.length = 0 :=
  ⟨rfl, rfl, rfl, rfl⟩

/-- C3, amended: `submit` dispatches the task non-blockingly, attaches the
metadata, performs the opportunistic drain check **before** appending the new
handle (so the check sweeps only the previously pending handles, and only
when wall-clock time since the last drain exceeds the Drain Interval —
otherwise no hook invocation and no sweep happen at all), then appends the
new handle to the Pending Set; `submit` never blocks on — and never
delivers — the job it just created, which is still pending when `submit`
returns. -/
theorem submit_check_before_append (ex : DaskExecutor ρ μ) (func : α → Except String ρ)
    (args : α) (extra_data : μ) (now ctime : Nat)
    (h : (ex._timed_process_jobs now).err = none) :
    (ex.submit func args extra_data now ctime).hook_calls
        = (ex._timed_process_jobs now).hook_calls ∧
    (ex.submit func args extra_data now ctime).exec.jobs
        = (ex._timed_process_jobs now).exec.jobs ++ [⟨func args, extra_data, ctime⟩] ∧
    (ex.submit func args extra_data now ctime).err = none ∧
    (¬ _PROCESS_INTERVAL < now - ex.last_processing →
      ex.submit func args extra_data now ctime
        = ⟨⟨ex.jobs ++ [⟨func args, extra_data, ctime⟩], ex.last_processing, ex.result_hook⟩,
            [], none⟩) := by
  rcases h' : ex._timed_process_jobs now with ⟨e', c', err'⟩
  rw [h'] at h
  simp only at h
  subst h
  refine ⟨?_, ?_, ?_, ?_⟩
  · simp [DaskExecutor.submit, h']
  · simp [DaskExecutor.submit, h']
  · simp [DaskExecutor.submit, h']
  · intro hlt
    have htp : ex._timed_process_jobs now = ⟨ex, [], none⟩ := by
      simp [DaskExecutor._timed_process_jobs, hlt]
    simp [DaskExecutor.submit, htp]

/-- Witness for C3 (amended) with the interval not yet elapsed: no sweep, no
hook invocation, and the new job is appended still pending. -/
theorem submit_check_before_append_witness :
    ((⟨[], 0, true⟩ : DaskExecutor Nat Nat).submit (fun n => .ok (n + 1)) 1 9 10
          50).hook_calls
        = ((⟨[], 0, true⟩ : DaskExecutor Nat Nat)._timed_process_jobs 10).hook_calls ∧
    ((⟨[], 0, true⟩ : DaskExecutor Nat Nat).submit (fun n => .ok (n + 1)) 1 9 10
          50).exec.jobs
        = ((⟨[], 0, true⟩ : DaskExecutor Nat Nat)._timed_process_jobs 10).exec.jobs
            ++ [⟨(fun n => Except.ok (n + 1) : Nat → Except String Nat) 1, 9, 50⟩] ∧
    ((⟨[], 0, true⟩ : DaskExecutor Nat Nat).submit (fun n => .ok (n + 1)) 1 9 10 50).err
        = none ∧
    (¬ _PROCESS_INTERVAL < 10 - (⟨[], 0, true⟩ : DaskExecutor Nat Nat).last_processing →
      (⟨[], 0, true⟩ : DaskExecutor Nat Nat).submit (fun n => .ok (n + 1)) 1 9 10 50
        = ⟨⟨([] : List (Job Nat Nat))
              ++ [⟨(fun n => Except.ok (n + 1) : Nat → Except String Nat) 1, 9, 50⟩], 0, true⟩,
            [], none⟩) :=
  submit_check_before_append ⟨[], 0, true⟩ (fun n => .ok (n + 1)) 1 9 10 50 rfl

/-- C1, amended: when a `dask_ctx` scope with `N` submitted (succeeding)
jobs exits **normally**, the final blocking drain guarantees that the Result
Hook has been invoked exactly `N` times by scope end, the metadata delivered
being exactly (a permutation of) the metadata passed to the `N` `submit`
calls; when the driver body raises, no final drain is performed
(`dask_ctx` has no `try/finally` around its `yield`) and submitted jobs can
be left undelivered. -/
theorem dask_ctx_normal_exit_drains_all [Inhabited ρ] (params : List (String × List Char))
    (events : List (SubmitEvent α ρ μ)) (t0 : Nat)
    (hevs : ∀ e ∈ events, ∃ r, e.func e.args = .ok r) :
    (dask_ctx true params events none t0).err = none ∧
    ((dask_ctx true params events none t0).hook_calls.map Prod.snd).Perm
        (events.map SubmitEvent.extra_data) ∧
    (dask_ctx true params events none t0).hook_calls.length = events.length := by
  obtain ⟨h1, h2, h3, h4⟩ :=
    run_submits_invariant (⟨[], t0, true⟩ : DaskExecutor ρ μ) events rfl (by simp) hevs
  rcases hr : run_submits (⟨[], t0, true⟩ : DaskExecutor ρ μ) events with ⟨e1, c1, err1⟩
  rw [hr] at h1 h2 h3 h4
  simp only at h1 h2 h3 h4
  subst h1
  have hok' : ∀ j ∈ as_completed e1.jobs, ∃ r, j.outcome = .ok r := fun j hj =>
    h3 j ((List.perm_insertionSort jobLE e1.jobs).mem_iff.mp hj)
  have hdrain := drain_loop_ok (as_completed e1.jobs) [] hok'
  have hfin : e1.process_jobs 0 none
      = ⟨{ e1 with jobs := [] },
          (as_completed e1.jobs).map (fun j => (j.resultD, j.extra_data)), none⟩ := by
    simp [DaskExecutor.process_jobs, h2, hdrain]
  have hctx : dask_ctx true params events none t0
      = ⟨c1 ++ (as_completed e1.jobs).map (fun j => (j.resultD, j.extra_data)), none,
          normalize_params params⟩ := by
    simp [dask_ctx, hr, hfin]
  rw [hctx]
  have hperm : ((c1 ++ (as_completed e1.jobs).map
        (fun j => (j.resultD, j.extra_data))).map Prod.snd).Perm
      (events.map SubmitEvent.extra_data) := by
    have hmap : ((as_completed e1.jobs).map
          (fun j => (j.resultD, j.extra_data))).map Prod.snd
        = (as_completed e1.jobs).map Job.extra_data := by
      simp [List.map_map, Function.comp]
    have hperm2 := (List.perm_insertionSort jobLE e1.jobs).map Job.extra_data
    rw [List.map_append, hmap]
    refine List.Perm.trans (List.Perm.append_left _ hperm2) ?_
    simpa using h4
  exact ⟨rfl, hperm, by simpa using hperm.length_eq⟩

/-- Witness for C1 (amended): two submitted jobs with metadata 100 and 200;
at normal scope exit the hook was invoked exactly twice, delivering exactly
that metadata. -/
theorem dask_ctx_normal_exit_drains_all_witness :
    (dask_ctx true []
          [⟨fun n => .ok (n * 2), 3, 100, 0, 5⟩, ⟨fun _ => .ok 9, 0, 200, 1, 4⟩]
          none 0 : ScopeResult Nat Nat).err = none ∧
    ((dask_ctx true []
          [⟨fun n => .ok (n * 2), 3, 100, 0, 5⟩, ⟨fun _ => .ok 9, 0, 200, 1, 4⟩]
          none 0 : ScopeResult Nat Nat).hook_calls.map Prod.snd).Perm
        (([⟨fun n => .ok (n * 2), 3, 100, 0, 5⟩, ⟨fun _ => .ok 9, 0, 200, 1, 4⟩]
            : List (SubmitEvent Nat Nat Nat)).map SubmitEvent.extra_data) ∧
    (dask_ctx true []
          [⟨fun n => .ok (n * 2), 3, 100, 0, 5⟩, ⟨fun _ => .ok 9, 0, 200, 1, 4⟩]
          none 0 : ScopeResult Nat Nat).hook_calls.length
        = ([⟨fun n => .ok (n * 2), 3, 100, 0, 5⟩, ⟨fun _ => .ok 9, 0, 200, 1, 4⟩]
            : List (SubmitEvent Nat Nat Nat)).length :=
  dask_ctx_normal_exit_drains_all []
    [⟨fun n => .ok (n * 2), 3, 100, 0, 5⟩, ⟨fun _ => .ok 9, 0, 200, 1, 4⟩] 0
    (by
      intro e he
      rcases List.mem_cons.mp he with h | h
      · rw [h]
        exact ⟨6, rfl⟩
      · rcases List.mem_cons.mp h with h' | h'
        · rw [h']
          exact ⟨9, rfl⟩
        · cases h')

/-- C1 counterexample: the claim as stated — the hook has been invoked
exactly `N` times by scope end regardless of whether the scope exits
normally or because the driver body raised — is false: with `N = 1` job
submitted and the driver body raising before scope exit, the scope ends with
the hook never invoked (0 times, not 1), because the missing `try/finally`
means the final blocking drain never runs. -/
theorem dask_ctx_error_exit_skips_drain :
    (dask_ctx true [] [⟨fun _ => Except.ok 0, 0, 7, 0, 0⟩] (some "boom") 0
        : ScopeResult Nat Nat).hook_calls.length = 0 ∧
    ([⟨fun _ => Except.ok 0, 0, 7, 0, 0⟩] : List (SubmitEvent Nat Nat Nat)).length = 1 ∧
    (dask_ctx true [] [⟨fun _ => Except.ok 0, 0, 7, 0, 0⟩] (some "boom") 0
        : ScopeResult Nat Nat).err = some "boom" :=
  ⟨rfl, rfl, rfl⟩

/-- C8: the Immediate Context's `submit` runs the task synchronously, then —
with a hook configured — invokes the hook with `(result, metadata)` and
returns the result to the caller; for 3 jobs submitted with metadata 0, 1, 2
the hook has received `(result_0, 0)` already after the first `submit`
(before the next `submit` begins), `(result_0, 0), (result_1, 1)` after the
second, and exactly `(result_0, 0), (result_1, 1), (result_2, 2)` in that
order after the third. -/
theorem serial_submit_delivers_in_order {ρ α : Type} (f0 f1 f2 : α → Except String ρ)
    (a0 a1 a2 : α) (r0 r1 r2 : ρ)
    (h0 : f0 a0 = .ok r0) (h1 : f1 a1 = .ok r1) (h2 : f2 a2 = .ok r2) :
    (SerialExecutor.mk true).submit f0 a0 (0 : Nat) = ⟨some r0, [(r0, 0)], none⟩ ∧
    run_serial ⟨true⟩ [(f0, a0, (0 : Nat))] = ([(r0, 0)], none) ∧
    run_serial ⟨true⟩ [(f0, a0, (0 : Nat)), (f1, a1, 1)] = ([(r0, 0), (r1, 1)], none) ∧
    run_serial ⟨true⟩ [(f0, a0, (0 : Nat)), (f1, a1, 1), (f2, a2, 2)]
        = ([(r0, 0), (r1, 1), (r2, 2)], none) := by
  refine ⟨?_, ?_, ?_, ?_⟩ <;> simp [run_serial, SerialExecutor.submit, h0, h1, h2]

/-- Witness for C8 at concrete tasks. -/
theorem serial_submit_delivers_in_order_witness :
    (SerialExecutor.mk true).submit (fun n => Except.ok (n + 10)) 1 (0 : Nat)
        = ⟨some 11, [(11, 0)], none⟩ ∧
    run_serial ⟨true⟩ [(fun n => Except.ok (n + 10), 1, (0 : Nat))] = ([(11, 0)], none) ∧
    run_serial ⟨true⟩
        [(fun n => Except.ok (n + 10), 1, (0 : Nat)), (fun n => Except.ok (n + 20), 2, 1)]
        = ([(11, 0), (22, 1)], none) ∧
    run_serial ⟨true⟩
        [(fun n => Except.ok (n + 10), 1, (0 : Nat)), (fun n => Except.ok (n + 20), 2, 1),
          (fun n => Except.ok (n + 30), 3, 2)]
        = ([(11, 0), (22, 1), (33, 2)], none) :=
  serial_submit_delivers_in_order (fun n => Except.ok (n + 10))
    (fun n => Except.ok (n + 20)) (fun n => Except.ok (n + 30)) 1 2 3 11 22 33 rfl rfl rfl

end ConnectomeManipulator
